import Mathlib

/-!
Verification development for the fetchbrowser repository.

The Rust sources are shallowly embedded: Rust strings are modelled as
lists of characters (`RStr`), machine-word parsing (`str::parse::<usize>`)
as a `Nat`-valued parser with the 64-bit overflow bound made explicit,
fallible network and archive operations as `Except`-valued oracles
supplied as inputs, and the filesystem effects of extraction as an
explicit record of the directories created and files written.
-/

/-- A Rust string, modelled as its list of characters. -/
abbrev RStr := List Char

/-- Rust `str::split(sep)`: splits at every occurrence of `sep`;
`"a/b/"` yields `["a", "b", ""]` and `""` yields `[""]`. -/
def splitOnChar (sep : Char) : RStr → List RStr
  | [] => [[]]
  | c :: cs =>
    if c = sep then [] :: splitOnChar sep cs
    else
      match splitOnChar sep cs with
      | [] => [[c]]
      | s :: ss => (c :: s) :: ss

/-- Digit-accumulation core of `usize::from_str`: `none` on the empty
string or any non-digit character, otherwise the decimal value. -/
def parseUsizeCore (s : RStr) : Option Nat :=
  if s.isEmpty then none
  else
    s.foldl
      (fun acc c =>
        acc.bind fun n => if c.isDigit then some (n * 10 + (c.toNat - 48)) else none)
      (some 0)

/-- Rust `str::parse::<usize>()` on a 64-bit target: an optional leading
`+`, then one or more decimal digits, failing on overflow past
`2 ^ 64 - 1`.  (Since the accumulated value grows monotonically, the
final value is below `2 ^ 64` iff no intermediate step overflowed.) -/
def parseUsize (s : RStr) : Option Nat :=
  let t := match s with
    | '+' :: rest => rest
    | _ => s
  (parseUsizeCore t).bind fun n => if n < 2 ^ 64 then some n else none

/-- Rust `str::len()`: the UTF-8 byte length of a string. -/
def utf8Len (s : RStr) : Nat := (s.map Char.utf8Size).sum

/-- Rust `str::rsplit_once(sep)`: splits at the last occurrence of
`sep`, returning the parts before and after it. -/
def rsplitOnce (sep : Char) : RStr → Option (RStr × RStr)
  | [] => none
  | c :: cs =>
    match rsplitOnce sep cs with
    | some (pre, post) => some (c :: pre, post)
    | none => if c = sep then some ([], cs) else none

/-- Decimal rendering of a natural number (the `Display` format used by
Rust `format!`), with an explicit fuel argument for structural
recursion; `fuel = n + 1` always suffices. -/
def natToDigitsAux : Nat → Nat → RStr
  | 0, _ => []
  | fuel + 1, n =>
    if n < 10 then [Char.ofNat (48 + n)]
    else natToDigitsAux fuel (n / 10) ++ [Char.ofNat (48 + n % 10)]

/-- Decimal rendering of a natural number as an `RStr`. -/
def natToRStr (n : Nat) : RStr := natToDigitsAux (n + 1) n

/-! ## BuildCatalog (`src/chromium/builds.rs`, `ChromiumBuilds`) -/

/-- The comparison `|a, b| a.1.cmp(&b.1)` used by `ChromiumBuilds::find`
to sort candidate entries ascending by revision. -/
def revLe (a b : RStr × Nat) : Prop := a.2 ≤ b.2

instance : DecidableRel revLe := fun a b => Nat.decLe a.2 b.2

instance : IsTotal (RStr × Nat) revLe := ⟨fun a b => Nat.le_total a.2 b.2⟩

instance : IsTrans (RStr × Nat) revLe := ⟨fun _ _ _ => Nat.le_trans⟩

/-- The `filter_map` body of `ChromiumBuilds::find`: a catalog string
contributes a `(build, revision)` pair exactly when it splits on `/`
into `[osPfx, rev, ""]` (the guard `prefix == os_prefix &&
empty.is_empty()`) and `rev` parses as a `usize`. -/
def buildEntry (osPfx : RStr) (build : RStr) : Option (RStr × Nat) :=
  match splitOnChar '/' build with
  | [pre, rev, e] =>
    if pre = osPfx ∧ e = [] then (parseUsize rev).map fun r => (build, r)
    else none
  | _ => none

/-- The candidate list built inside `ChromiumBuilds::find` before
sorting. -/
def acceptedList (builds : List RStr) (osPfx : RStr) : List (RStr × Nat) :=
  builds.filterMap (buildEntry osPfx)

/-- The candidate list after `list.sort_by(|a, b| a.1.cmp(&b.1))`
(a stable ascending sort by revision; insertion sort computes the same
output as Rust's stable sort). -/
def sortedAccepted (builds : List RStr) (osPfx : RStr) : List (RStr × Nat) :=
  List.insertionSort revLe (acceptedList builds osPfx)

/-- `ChromiumBuilds::find(find_pos, os_prefix)`: the first sorted entry
with revision `≥ find_pos`, kept only if `revision - find_pos ≤ 120`
(`usize` subtraction, guarded by the preceding `find`), projected to its
prefix string. -/
def buildsFind (builds : List RStr) (findPos : Nat) (osPfx : RStr) : Option RStr :=
  (((sortedAccepted builds osPfx).find? fun b => decide (findPos ≤ b.2)).filter
      fun b => decide (b.2 - findPos ≤ 120)).map Prod.fst

example : buildsFind (["Win_x64/100/", "Win_x64/250/", "Win_x64/400/"].map String.toList)
    200 ("Win_x64".toList) = some ("Win_x64/250/".toList) := by decide

example : buildsFind (["Win_x64/100/", "Win_x64/250/", "Win_x64/400/"].map String.toList)
    50 ("Win_x64".toList) = some ("Win_x64/100/".toList) := by decide

example : buildsFind (["Win_x64/100/", "Win_x64/250/", "Win_x64/400/"].map String.toList)
    1000 ("Win_x64".toList) = none := by decide

example : buildsFind (["Win_x64/100/", "Win_x64/250/", "Win_x64/400/"].map String.toList)
    121 ("Win_x64".toList) = none := by decide

example : splitOnChar '/' ("a/b/".toList) = ["a".toList, "b".toList, []] := by decide

example : parseUsize ("+250".toList) = some 250 := by decide

example : parseUsize ("2a".toList) = none := by decide

example : parseUsize [] = none := by decide

/-! ## HistoryIndex (`src/chromium/history.rs`, `ChromiumHistory`) -/

/-- One record of `history.json` (`ChromiumHistoryInfo`). -/
structure ChromiumHistoryInfo where
  channel : RStr
  os : RStr
  timestamp : RStr
  version : RStr
deriving DecidableEq

/-- The filter predicate of `ChromiumHistory::find`:
`info.version == version || (info.version.chars().nth(ver_len) ==
Some('.') && info.version.starts_with(version))`, where
`ver_len = version.len()` is the query's UTF-8 byte length while
`chars().nth` indexes by character. -/
def historyMatches (infoVersion : RStr) (version : RStr) : Bool :=
  infoVersion == version ||
    (decide (infoVersion.get? (utf8Len version) = some '.') &&
      List.isPrefixOf version infoVersion)

/-- `ChromiumHistory::find(version)`: all records whose version matches
the query. -/
def historyFind (infos : List ChromiumHistoryInfo) (version : RStr) :
    List ChromiumHistoryInfo :=
  infos.filter fun info => historyMatches info.version version

example : historyMatches ("11".toList) ("11".toList) = true := by decide
example : historyMatches ("11.0.1".toList) ("11".toList) = true := by decide
example : historyMatches ("115.0.0.1".toList) ("11".toList) = false := by decide
example : historyMatches ("110".toList) ("11".toList) = false := by decide
example : historyMatches ("¢.1".toList) ("¢".toList) = false := by decide
example : ("¢".toList) <+: ("¢.1".toList) := by decide
example : ("¢.1".toList).get? (("¢".toList).length) = some '.' := by decide

/-! ## VersionResolver (`src/chromium/mod.rs`, `ChromiumReleaseMatches`) -/

/-- The dependency metadata returned by `deps.json`
(`ChromiumDepsInfo`). -/
structure ChromiumDepsInfo where
  chromium_base_commit : Option RStr
  chromium_base_position : Option RStr
  chromium_branch : Option RStr
  chromium_commit : RStr
  chromium_version : RStr
  skia_commit : RStr
  v8_commit : RStr
  v8_position : RStr
  v8_version : RStr
deriving DecidableEq

/-- A resolved release (`ChromiumReleaseItem`); `revPfx` embeds the
source field `rev_prefix`. -/
structure ChromiumReleaseItem where
  revPfx : RStr
  version : RStr
deriving DecidableEq

/-- The per-candidate body of `ChromiumReleaseMatches::next` after a
successful deps fetch: `Some item` when the candidate has a
`chromium_base_position` that parses as `usize` and the catalog finds a
build within tolerance; `none` on the three logged-and-skipped outcomes
(no position, unparsable position, no nearby build). -/
def resolveCand (builds : List RStr) (osPfx : RStr) (deps : ChromiumDepsInfo) :
    Option ChromiumReleaseItem :=
  match deps.chromium_base_position with
  | some pos =>
    match parseUsize pos with
    | some p =>
      match buildsFind builds p osPfx with
      | some rp => some ⟨rp, deps.chromium_version⟩
      | none => none
    | none => none
  | none => none

/-- `ChromiumReleaseMatches::next`, with each candidate's deps fetch
outcome (`history.deps(client)`) supplied as an `Except` oracle: a fetch
error is returned immediately (`return Some(Err(err))`); a candidate
that resolves returns `Some(Ok(item))`; any other candidate is skipped
and the loop continues; an exhausted iterator yields `none`. -/
def matchesNext (ε : Type) (builds : List RStr) (osPfx : RStr) :
    List (Except ε ChromiumDepsInfo) → Option (Except ε ChromiumReleaseItem)
  | [] => none
  | c :: rest =>
    match c with
    | Except.error e => some (Except.error e)
    | Except.ok deps =>
      match resolveCand builds osPfx deps with
      | some item => some (Except.ok item)
      | none => matchesNext ε builds osPfx rest

/-! ## Page enumeration (`src/chromium/builds.rs`, `ChromiumBuildsPage`) -/

/-- One storage object of a listing page (`GoogleApiStorageObject`). -/
structure GoogleApiStorageObject where
  kind : RStr
  media_link : RStr
  name : RStr
  size : RStr
  updated : RStr
deriving DecidableEq

/-- One parsed listing page (`ChromiumBuildPage`). -/
structure ChromiumBuildPage where
  kind : RStr
  next_page_token : Option RStr
  prefixes : List RStr
  items : List GoogleApiStorageObject
deriving DecidableEq

/-- The mutable state of the `ChromiumBuildsPage` iterator. -/
structure PageState where
  next_page_token : Option RStr
  done : Bool
deriving DecidableEq

/-- `<ChromiumBuildsPage as Iterator>::next`, with this request's
response supplied as an `Except` oracle.  If `done` is set the iterator
yields nothing.  On a transport or parse error the state is unchanged
(the error occurs before the state updates) and the error is yielded.
On success the token is stored, `done` is set iff the token is absent,
and the page's prefixes are yielded unless empty, in which case the
iterator yields nothing. -/
def pageNext (ε : Type) (st : PageState) (response : Except ε ChromiumBuildPage) :
    Option (Except ε (List RStr)) × PageState :=
  if st.done then (none, st)
  else
    match response with
    | Except.error e => (some (Except.error e), st)
    | Except.ok page =>
      let st' : PageState :=
        { next_page_token := page.next_page_token
          done := page.next_page_token.isNone }
      (if page.prefixes.isEmpty then none else some (Except.ok page.prefixes), st')

/-- The `for page in pages` driver of `ChromiumBuilds::init`: calls
`pageNext` with successive oracle responses, collecting every yielded
item and stopping at the first `none`. -/
def pageEnum (ε : Type) (st : PageState) :
    List (Except ε ChromiumBuildPage) → List (Except ε (List RStr))
  | [] => []
  | r :: rs =>
    match pageNext ε st r with
    | (none, _) => []
    | (some out, st') => out :: pageEnum ε st' rs

/-! ## ArchiveExtractor (the extraction loop of `run` in `src/main.rs`,
with the per-entry layout checks also at `src/chromium/download.rs`) -/

/-- `ChromiumVersion::from_str` (`src/version.rs`): split on `.`; reject
unless exactly four parts; parse each part as `usize`, dropping
failures; accept only if exactly four values survive. -/
def chromiumVersionFromStr (s : RStr) : Option (Nat × Nat × Nat × Nat) :=
  let split := splitOnChar '.' s
  if split.length ≠ 4 then none
  else
    match split.filterMap parseUsize with
    | [major, minor, branch, patch] => some (major, minor, branch, patch)
    | _ => none

/-- `ChromiumVersion::to_string`: `format!("{}.{}.{}.{}", ...)`. -/
def chromiumVersionToRStr (v : Nat × Nat × Nat × Nat) : RStr :=
  natToRStr v.1 ++ '.' :: natToRStr v.2.1 ++ '.' :: natToRStr v.2.2.1 ++
    '.' :: natToRStr v.2.2.2

/-- One archive entry as produced by `read_zipfile_from_stream`:
its name, whether it is a directory entry, and its byte content. -/
structure ZipEntry where
  name : RStr
  isDir : Bool
  content : List Nat
deriving DecidableEq

/-- The archive's read outcomes: `Ok(Some(entry))` entries in stream
order with `Err` read failures as oracle values; the end of the list is
`Ok(None)`. -/
abbrev ZipStream (ε : Type) := List (Except ε ZipEntry)

/-- The extraction failures of the loop: a stream read error
(`"读取压缩文件出错"`), a first entry that is not a directory
(`"压缩包内目录结构不正确"`), and an entry outside the recorded root
(`"压缩包文件结构不正确"`). -/
inductive ExtractError (ε : Type) where
  | readError (e : ε)
  | malformedFirst
  | malformedEntry
deriving DecidableEq

/-- The filesystem writes performed by the extraction loop, relative to
`base_path`: directories passed to `create_dir_all` and files written
via truncate-and-create `OpenOptions`, each in execution order. -/
structure FsState where
  dirs : List RStr
  files : List (RStr × List Nat)
deriving DecidableEq

/-- The contents a path holds after extraction: the last write to that
path (truncate-on-write semantics). -/
def readFile (fs : FsState) (p : RStr) : Option (List Nat) :=
  ((fs.files.reverse.find? fun f => f.1 == p).map Prod.snd)

/-- Every path the extraction touched (created directory or written
file), relative to the destination. -/
def touchedPaths (fs : FsState) : List RStr :=
  fs.dirs ++ fs.files.map Prod.fst

/-- The `.manifest` handling of the loop body: when the entry name ends
in `".manifest"`, strip everything up to the last `/` and the suffix,
and record the remainder when it parses as a `ChromiumVersion`. -/
def manifestVersions (zipName : RStr) (versions : List RStr) : List RStr :=
  if List.isSuffixOf (".manifest".toList) zipName then
    let manifestName := ((rsplitOnce '/' zipName).map Prod.snd).getD zipName
    let manifestName := manifestName.take (manifestName.length - (".manifest".toList).length)
    if (chromiumVersionFromStr manifestName).isSome then versions ++ [manifestName]
    else versions
  else versions

/-- The directory-entry version probe: when no version is known yet,
`zip_name.rsplit('/').nth(1)` (the innermost directory component) is
parsed as a `ChromiumVersion` and recorded rendered back to a string. -/
def dirVersions (zipName : RStr) (versions : List RStr) : List RStr :=
  if versions.isEmpty then
    match ((splitOnChar '/' zipName).reverse.get? 1).bind chromiumVersionFromStr with
    | some v => versions ++ [chromiumVersionToRStr v]
    | none => versions
  else versions

/-- The extraction loop of `run`: `pfx` embeds the `prefix` variable
(the archive root, empty until the first directory entry is seen),
`versions` the `version_list` vector, `fs` the filesystem writes so
far.  Each entry is read; the first entry must be a directory and only
records the root; every later entry must start with the root and is
materialized at its root-stripped path (`&zip_name[prefix.len()..]`,
which on UTF-8 equals dropping `prefix.length` characters). -/
def extractLoop (ε : Type) :
    ZipStream ε → RStr → List RStr → FsState →
      Except (ExtractError ε) Unit × FsState × List RStr
  | [], _, versions, fs => (Except.ok (), fs, versions)
  | Except.error e :: _, _, versions, fs =>
    (Except.error (ExtractError.readError e), fs, versions)
  | Except.ok zip :: rest, pfx, versions, fs =>
    let zipName := zip.name
    if pfx = [] then
      if zip.isDir then extractLoop ε rest zipName versions fs
      else (Except.error ExtractError.malformedFirst, fs, versions)
    else if List.isPrefixOf pfx zipName then
      let versions := manifestVersions zipName versions
      let filePath := zipName.drop pfx.length
      if zip.isDir then
        extractLoop ε rest pfx (dirVersions zipName versions)
          { fs with dirs := fs.dirs ++ [filePath] }
      else
        extractLoop ε rest pfx versions
          { fs with files := fs.files ++ [(filePath, zip.content)] }
    else (Except.error ExtractError.malformedEntry, fs, versions)

/-- Extraction of a whole stream, starting from the empty root, empty
version list and no writes. -/
def extract (ε : Type) (entries : ZipStream ε) :
    Except (ExtractError ε) Unit × FsState × List RStr :=
  extractLoop ε entries [] [] ⟨[], []⟩

example : extract Unit
    [Except.ok ⟨"root/".toList, true, []⟩,
     Except.ok ⟨"root/sub/".toList, true, []⟩,
     Except.ok ⟨"root/sub/f.txt".toList, false, [1, 2, 3]⟩] =
    (Except.ok (), ⟨["sub/".toList], [("sub/f.txt".toList, [1, 2, 3])]⟩, []) := rfl

example : extract Unit
    [Except.ok ⟨"root/".toList, true, []⟩,
     Except.ok ⟨"root/a.txt".toList, false, [7]⟩,
     Except.ok ⟨"other/b.txt".toList, false, [8]⟩] =
    (Except.error ExtractError.malformedEntry,
      ⟨[], [("a.txt".toList, [7])]⟩, []) := rfl

example : extract Unit [Except.ok ⟨"root/x.txt".toList, false, [7]⟩] =
    (Except.error ExtractError.malformedFirst, ⟨[], []⟩, []) := rfl

example : chromiumVersionFromStr ("114.0.5735.90".toList) = some (114, 0, 5735, 90) := by
  decide

/-! ## Helper lemmas -/

/-- The pair produced by the `filter_map` body of `ChromiumBuilds::find`
always carries the originating catalog string in its first component. -/
theorem buildEntry_fst {osPfx b : RStr} {x : RStr × Nat}
    (h : buildEntry osPfx b = some x) : x.1 = b := by
  unfold buildEntry at h
  split at h
  · split at h
    · rcases Option.map_eq_some'.mp h with ⟨r, _, hx⟩
      rw [← hx]
    · exact absurd h (by simp)
  · exact absurd h (by simp)

/-- Membership in the accepted candidate list, in terms of the catalog
and the per-string acceptance function. -/
theorem mem_acceptedList {builds : List RStr} {osPfx : RStr} {x : RStr × Nat} :
    x ∈ acceptedList builds osPfx ↔
      x.1 ∈ builds ∧ buildEntry osPfx x.1 = some x := by
  unfold acceptedList
  rw [List.mem_filterMap]
  constructor
  · rintro ⟨a, ha, hae⟩
    have hfst := buildEntry_fst hae
    exact ⟨hfst ▸ ha, hfst ▸ hae⟩
  · rintro ⟨hb, hbe⟩
    exact ⟨x.1, hb, hbe⟩

/-- Sorting does not change membership. -/
theorem mem_sortedAccepted {builds : List RStr} {osPfx : RStr} {x : RStr × Nat} :
    x ∈ sortedAccepted builds osPfx ↔ x ∈ acceptedList builds osPfx :=
  List.mem_insertionSort revLe

/-- On a list sorted ascending by revision, `find?` with the predicate
`findPos ≤ revision` returns an entry of minimal revision among those
at or above `findPos`. -/
theorem find?_sorted_min {l : List (RStr × Nat)} (hs : l.Sorted revLe) {p : Nat}
    {x : RStr × Nat} (hf : l.find? (fun b => decide (p ≤ b.2)) = some x) :
    ∀ y ∈ l, p ≤ y.2 → x.2 ≤ y.2 := by
  induction l with
  | nil => simp at hf
  | cons h t ih =>
    by_cases hp : p ≤ h.2
    · rw [List.find?_cons_of_pos _ (by simpa using hp)] at hf
      cases hf
      intro y hy hpy
      rcases List.mem_cons.mp hy with rfl | hyt
      · exact le_refl _
      · exact (List.sorted_cons.mp hs).1 y hyt
    · rw [List.find?_cons_of_neg _ (by simpa using hp)] at hf
      intro y hy hpy
      rcases List.mem_cons.mp hy with rfl | hyt
      · exact absurd hpy hp
      · exact ih (List.sorted_cons.mp hs).2 hf y hyt hpy

/-! ## Claim theorems -/

/-- C1: `ChromiumBuilds::find(p, os)` returns `none` whenever no
accepted entry has a revision in `[p, p + 120]`, and otherwise returns
the accepted entry whose revision is the smallest revision `≥ p`. -/
theorem buildsFind_window_spec (builds : List RStr) (p : Nat) (osPfx : RStr) :
    ((∀ b r, b ∈ builds → buildEntry osPfx b = some (b, r) →
        ¬(p ≤ r ∧ r ≤ p + 120)) →
      buildsFind builds p osPfx = none) ∧
    (∀ w rw, w ∈ builds → buildEntry osPfx w = some (w, rw) →
      p ≤ rw → rw ≤ p + 120 →
      ∃ b r, buildsFind builds p osPfx = some b ∧ b ∈ builds ∧
        buildEntry osPfx b = some (b, r) ∧ p ≤ r ∧
        ∀ b' r', b' ∈ builds → buildEntry osPfx b' = some (b', r') →
          p ≤ r' → r ≤ r') := by
  constructor
  · intro hno
    unfold buildsFind
    cases hf : (sortedAccepted builds osPfx).find? (fun b => decide (p ≤ b.2)) with
    | none => simp
    | some x =>
      have hx_acc : x ∈ acceptedList builds osPfx :=
        mem_sortedAccepted.mp (List.mem_of_find?_eq_some hf)
      obtain ⟨hxb, hxe⟩ := mem_acceptedList.mp hx_acc
      have hpx : p ≤ x.2 := by simpa using List.find?_some hf
      have hxw : ¬(p ≤ x.2 ∧ x.2 ≤ p + 120) := hno x.1 x.2 hxb hxe
      have h120 : ¬(x.2 - p ≤ 120) := fun hle => hxw ⟨hpx, by omega⟩
      simp [Option.filter, h120]
  · intro w rw hw hwe hp1 hp2
    have hmem : (w, rw) ∈ sortedAccepted builds osPfx :=
      mem_sortedAccepted.mpr (mem_acceptedList.mpr ⟨hw, hwe⟩)
    cases hf : (sortedAccepted builds osPfx).find? (fun b => decide (p ≤ b.2)) with
    | none =>
      exfalso
      have := List.find?_eq_none.mp hf (w, rw) hmem
      simp at this
      omega
    | some x =>
      have hx_acc : x ∈ acceptedList builds osPfx :=
        mem_sortedAccepted.mp (List.mem_of_find?_eq_some hf)
      obtain ⟨hxb, hxe⟩ := mem_acceptedList.mp hx_acc
      have hpx : p ≤ x.2 := by simpa using List.find?_some hf
      have hmin : ∀ y ∈ sortedAccepted builds osPfx, p ≤ y.2 → x.2 ≤ y.2 :=
        find?_sorted_min (List.sorted_insertionSort revLe _) hf
      have hxle : x.2 ≤ rw := hmin (w, rw) hmem hp1
      have hfil : x.2 - p ≤ 120 := by omega
      refine ⟨x.1, x.2, ?_, hxb, hxe, hpx, ?_⟩
      · unfold buildsFind
        rw [hf]
        simp [Option.filter, hfil]
      · intro b' r' hb' hbe' hpr'
        exact hmin (b', r')
          (mem_sortedAccepted.mpr (mem_acceptedList.mpr ⟨hb', hbe'⟩)) hpr'

/-- C1 witness: in the catalog `{100, 250, 400}` under `Win_x64`, a
target position of 200 yields the entry at revision 250, the smallest
revision at or above 200. -/
theorem buildsFind_window_spec_witness :
    ∃ b r,
      buildsFind (["Win_x64/100/", "Win_x64/250/", "Win_x64/400/"].map String.toList)
          200 ("Win_x64".toList) = some b ∧
        b ∈ (["Win_x64/100/", "Win_x64/250/", "Win_x64/400/"].map String.toList) ∧
        buildEntry ("Win_x64".toList) b = some (b, r) ∧ 200 ≤ r ∧
        ∀ b' r',
          b' ∈ (["Win_x64/100/", "Win_x64/250/", "Win_x64/400/"].map String.toList) →
          buildEntry ("Win_x64".toList) b' = some (b', r') → 200 ≤ r' → r ≤ r' :=
  (buildsFind_window_spec
      (["Win_x64/100/", "Win_x64/250/", "Win_x64/400/"].map String.toList)
      200 ("Win_x64".toList)).2
    ("Win_x64/250/".toList) 250 (by decide) (by decide) (by decide) (by decide)

/-- C6: a catalog string contributes a `(build, revision)` pair only if
it splits on `/` into exactly three segments — the platform tag, a
segment parsing as an unsigned integer, and an empty third segment. -/
theorem acceptedList_shape (builds : List RStr) (osPfx b : RStr) (r : Nat)
    (h : (b, r) ∈ acceptedList builds osPfx) :
    b ∈ builds ∧
      ∃ rev, splitOnChar '/' b = [osPfx, rev, []] ∧ parseUsize rev = some r := by
  obtain ⟨hb, hbe⟩ := mem_acceptedList.mp h
  refine ⟨hb, ?_⟩
  unfold buildEntry at hbe
  split at hbe
  case _ pre rev e heq =>
    split at hbe
    case isTrue hc =>
      rcases Option.map_eq_some'.mp hbe with ⟨r', hr', hx⟩
      have hrr : r' = r := congrArg Prod.snd hx
      exact ⟨rev, by rw [heq, hc.1, hc.2], hrr ▸ hr'⟩
    case isFalse => exact absurd hbe (by simp)
  case _ => exact absurd hbe (by simp)

/-- C6 witness: the string `"Win_x64/250/"` is accepted with revision
250 and has the required three-segment shape. -/
theorem acceptedList_shape_witness :
    ("Win_x64/250/".toList) ∈ ["Win_x64/250/".toList] ∧
      ∃ rev, splitOnChar '/' ("Win_x64/250/".toList) =
          [("Win_x64".toList), rev, []] ∧ parseUsize rev = some 250 :=
  acceptedList_shape ["Win_x64/250/".toList] ("Win_x64".toList)
    ("Win_x64/250/".toList) 250 (by decide)

/-- C10: the tolerance check of `ChromiumBuilds::find` subtracts
`find_pos` only from a revision already known to be `≥ find_pos`, so
the `usize` subtraction never underflows (it agrees with integer
subtraction), and `find` is total, returning `none` or `some`. -/
theorem buildsFind_sub_safe (builds : List RStr) (p : Nat) (osPfx : RStr) :
    (∀ x, (sortedAccepted builds osPfx).find? (fun b => decide (p ≤ b.2)) = some x →
      p ≤ x.2 ∧ ((x.2 - p : Nat) : Int) = (x.2 : Int) - (p : Int)) ∧
    (buildsFind builds p osPfx = none ∨ ∃ b, buildsFind builds p osPfx = some b) := by
  constructor
  · intro x hf
    have hpx : p ≤ x.2 := by simpa using List.find?_some hf
    exact ⟨hpx, by omega⟩
  · cases h : buildsFind builds p osPfx with
    | none => exact Or.inl rfl
    | some b => exact Or.inr ⟨b, rfl⟩

/-- C10 witness: with catalog `{100, 250, 400}` and target 200, the
`find` step selects revision 250 and the subtraction `250 - 200` is the
integer difference. -/
theorem buildsFind_sub_safe_witness :
    200 ≤ (("Win_x64/250/".toList, 250) : RStr × Nat).2 ∧
      (((("Win_x64/250/".toList, 250) : RStr × Nat).2 - 200 : Nat) : Int) =
        ((("Win_x64/250/".toList, 250) : RStr × Nat).2 : Int) - (200 : Int) :=
  (buildsFind_sub_safe
      (["Win_x64/100/", "Win_x64/250/", "Win_x64/400/"].map String.toList)
      200 ("Win_x64".toList)).1
    ("Win_x64/250/".toList, 250) (by decide)

/-- A step lemma: a candidate whose deps were fetched but which does not
resolve is skipped and the loop continues with the remaining
candidates. -/
theorem matchesNext_cons_skip {ε : Type} {builds : List RStr} {osPfx : RStr}
    {deps : ChromiumDepsInfo} {rest : List (Except ε ChromiumDepsInfo)}
    (h : resolveCand builds osPfx deps = none) :
    matchesNext ε builds osPfx (Except.ok deps :: rest) =
      matchesNext ε builds osPfx rest := by
  simp [matchesNext, h]

/-- C2: the resolver skips every candidate that lacks a commit position,
whose position fails to parse, or for which the catalog finds no build
within tolerance, and returns the item of the first candidate in
supplied order that resolves. -/
theorem matchesNext_first_resolving (ε : Type) (builds : List RStr) (osPfx : RStr) :
    (∀ deps : ChromiumDepsInfo,
      (deps.chromium_base_position = none ∨
        (∃ pos, deps.chromium_base_position = some pos ∧ parseUsize pos = none) ∨
        (∃ pos pn, deps.chromium_base_position = some pos ∧
          parseUsize pos = some pn ∧ buildsFind builds pn osPfx = none)) →
      resolveCand builds osPfx deps = none) ∧
    (∀ (skipped rest : List (Except ε ChromiumDepsInfo))
        (deps : ChromiumDepsInfo) (item : ChromiumReleaseItem),
      (∀ s ∈ skipped, s.toOption.map (resolveCand builds osPfx) = some none) →
      resolveCand builds osPfx deps = some item →
      matchesNext ε builds osPfx (skipped ++ Except.ok deps :: rest) =
        some (Except.ok item)) := by
  constructor
  · intro deps hcase
    rcases hcase with hnone | ⟨pos, hpos, hparse⟩ | ⟨pos, pn, hpos, hparse, hfind⟩
    · simp [resolveCand, hnone]
    · simp [resolveCand, hpos, hparse]
    · simp [resolveCand, hpos, hparse, hfind]
  · intro skipped rest deps item hskip hres
    induction skipped with
    | nil => simp [matchesNext, hres]
    | cons s t ih =>
      have hs := hskip s (List.mem_cons_self s t)
      cases s with
      | error e => simp [Except.toOption] at hs
      | ok d =>
        simp [Except.toOption] at hs
        rw [List.cons_append, matchesNext_cons_skip hs]
        exact ih fun s' hs' => hskip s' (List.mem_cons_of_mem _ hs')

/-- C2 witness: with catalog revision 250 under `Win_x64`, two
candidates without a commit position followed by one resolving at
position 200 yield the third candidate's item. -/
theorem matchesNext_first_resolving_witness :
    matchesNext Unit (["Win_x64/250/".toList]) ("Win_x64".toList)
        [Except.ok ⟨none, none, none, [], "116.0.0.1".toList, [], [], [], []⟩,
          Except.ok ⟨none, none, none, [], "115.0.0.1".toList, [], [], [], []⟩,
          Except.ok ⟨none, some ("200".toList), none, [], "114.0.5735.90".toList,
            [], [], [], []⟩] =
      some (Except.ok ⟨"Win_x64/250/".toList, "114.0.5735.90".toList⟩) :=
  (matchesNext_first_resolving Unit (["Win_x64/250/".toList]) ("Win_x64".toList)).2
    [Except.ok ⟨none, none, none, [], "116.0.0.1".toList, [], [], [], []⟩,
      Except.ok ⟨none, none, none, [], "115.0.0.1".toList, [], [], [], []⟩]
    [] ⟨none, some ("200".toList), none, [], "114.0.5735.90".toList, [], [], [], []⟩
    ⟨"Win_x64/250/".toList, "114.0.5735.90".toList⟩ (by decide) (by decide)

/-- C9: a failed deps fetch (transport or format error) is returned
immediately, before any later candidate is examined: the result does not
depend on the candidates after the failing one. -/
theorem matchesNext_error_propagates (ε : Type) (builds : List RStr) (osPfx : RStr)
    (skipped rest : List (Except ε ChromiumDepsInfo)) (e : ε)
    (hskip : ∀ s ∈ skipped, s.toOption.map (resolveCand builds osPfx) = some none) :
    matchesNext ε builds osPfx (skipped ++ Except.error e :: rest) =
      some (Except.error e) := by
  induction skipped with
  | nil => simp [matchesNext]
  | cons s t ih =>
    have hs := hskip s (List.mem_cons_self s t)
    cases s with
    | error e' => simp [Except.toOption] at hs
    | ok d =>
      simp [Except.toOption] at hs
      rw [List.cons_append, matchesNext_cons_skip hs]
      exact ih fun s' hs' => hskip s' (List.mem_cons_of_mem _ hs')

/-- C9 witness: after one skippable candidate, a fetch error `7` is
returned even though a later candidate would have resolved. -/
theorem matchesNext_error_propagates_witness :
    matchesNext Nat (["Win_x64/250/".toList]) ("Win_x64".toList)
        [Except.ok ⟨none, none, none, [], "116.0.0.1".toList, [], [], [], []⟩,
          Except.error 7,
          Except.ok ⟨none, some ("200".toList), none, [], "114.0.5735.90".toList,
            [], [], [], []⟩] =
      some (Except.error 7) :=
  matchesNext_error_propagates Nat (["Win_x64/250/".toList]) ("Win_x64".toList)
    [Except.ok ⟨none, none, none, [], "116.0.0.1".toList, [], [], [], []⟩]
    [Except.ok ⟨none, some ("200".toList), none, [], "114.0.5735.90".toList,
      [], [], [], []⟩]
    7 (by decide)

/-- Every character occupies at least one UTF-8 byte, so a string's byte
length is at least its character count. -/
theorem length_le_utf8Len (s : RStr) : s.length ≤ utf8Len s := by
  induction s with
  | nil => simp [utf8Len]
  | cons c cs ih =>
    have hc : 1 ≤ c.utf8Size := Char.utf8Size_pos c
    simp only [utf8Len, List.map_cons, List.sum_cons, List.length_cons] at *
    omega

/-- C3 counterexample: for the query `"¢"` (a two-byte character), the
version `"¢.1"` is a proper extension of the query with `'.'` as the
character immediately after the query, yet the code does not match it —
the code indexes `chars().nth` with the query's byte length, not its
character count. -/
theorem historyMatches_byte_index_cex :
    historyMatches ("¢.1".toList) ("¢".toList) = false ∧
      ("¢".toList) ≠ ("¢.1".toList) ∧
      ("¢".toList) <+: ("¢.1".toList) ∧
      ("¢.1".toList).get? (("¢".toList).length) = some '.' := by
  exact ⟨by decide, by decide, by decide, by decide⟩

/-- C3 (amended): a record matches iff its version equals the query
exactly, or the query is a proper prefix of the version and the
character at character-index equal to the query's UTF-8 byte length is
`'.'`.  For queries made of one-byte (ASCII) characters — every
dot-delimited numeric version — that index is exactly the character
immediately after the query, so `"11"` matches `"11"` and `"11.0.1"`
but neither `"115.0.0.1"` nor `"110"`. -/
theorem historyMatches_iff :
    (∀ iv q : RStr, historyMatches iv q = true ↔
      iv = q ∨ (q ≠ iv ∧ q <+: iv ∧ iv.get? (utf8Len q) = some '.')) ∧
    historyMatches ("11".toList) ("11".toList) = true ∧
    historyMatches ("11.0.1".toList) ("11".toList) = true ∧
    historyMatches ("115.0.0.1".toList) ("11".toList) = false ∧
    historyMatches ("110".toList) ("11".toList) = false := by
  refine ⟨?_, by decide, by decide, by decide, by decide⟩
  intro iv q
  simp only [historyMatches, Bool.or_eq_true, beq_iff_eq, Bool.and_eq_true,
    decide_eq_true_eq, List.isPrefixOf_iff_prefix]
  constructor
  · rintro (h | ⟨hdot, hp⟩)
    · exact Or.inl h
    · refine Or.inr ⟨?_, hp, hdot⟩
      rintro rfl
      have hnone : q.get? (utf8Len q) = none :=
        List.get?_eq_none.mpr (length_le_utf8Len q)
      rw [hnone] at hdot
      exact Option.noConfusion hdot
  · rintro (h | ⟨hne, hp, hdot⟩)
    · exact Or.inl h
    · exact Or.inr ⟨hdot, hp⟩

/-- Once the iterator's `done` flag is set, no further responses are
consumed and enumeration yields nothing. -/
theorem pageEnum_done {ε : Type} {st : PageState} (h : st.done = true) :
    ∀ rs : List (Except ε ChromiumBuildPage), pageEnum ε st rs = [] := by
  intro rs
  cases rs with
  | nil => rfl
  | cons r rs' => simp [pageEnum, pageNext, h]

/-- C5: page enumeration terminates.  A successfully parsed page whose
response carries no continuation token sets `done`, so every later call
yields nothing, and enumeration ends with that page's prefixes (yielded
when non-empty); a page whose prefix list is empty ends enumeration
immediately, whatever its token and whatever pages came before. -/
theorem pageEnum_termination (ε : Type) (st : PageState) (page : ChromiumBuildPage)
    (rs : List (Except ε ChromiumBuildPage)) (h : st.done = false) :
    (page.next_page_token = none →
      (pageNext ε st (Except.ok page)).2.done = true ∧
        (∀ r, pageNext ε (pageNext ε st (Except.ok page)).2 r =
          (none, (pageNext ε st (Except.ok page)).2)) ∧
        pageEnum ε st (Except.ok page :: rs) =
          if page.prefixes.isEmpty then [] else [Except.ok page.prefixes]) ∧
    (page.prefixes = [] → pageEnum ε st (Except.ok page :: rs) = []) := by
  constructor
  · intro htok
    have hst' : (pageNext ε st (Except.ok page)).2 = ⟨none, true⟩ := by
      simp [pageNext, h, htok]
    refine ⟨by rw [hst'], ?_, ?_⟩
    · intro r
      rw [hst']
      rfl
    · cases hpre : page.prefixes.isEmpty with
      | true => simp [pageEnum, pageNext, h, hpre]
      | false =>
        have hrest : pageEnum ε (⟨none, true⟩ : PageState) rs = [] :=
          pageEnum_done rfl rs
        simp [pageEnum, pageNext, h, hpre, htok, hrest]
  · intro hpre
    simp [pageEnum, pageNext, h, hpre]

/-- C5 witness: a first page with prefixes and no token yields exactly
those prefixes and stops, ignoring a further queued response; a page
with no prefixes but a token stops immediately. -/
theorem pageEnum_termination_witness :
    (pageEnum Unit ⟨none, false⟩
        [Except.ok ⟨"storage#objects".toList, none, ["Win_x64/100/".toList], []⟩,
          Except.ok ⟨"storage#objects".toList, none, ["Win_x64/250/".toList], []⟩] =
      [Except.ok ["Win_x64/100/".toList]]) ∧
    (pageEnum Unit ⟨none, false⟩
        [Except.ok ⟨"storage#objects".toList, some ("tok".toList), [], []⟩,
          Except.ok ⟨"storage#objects".toList, none, ["Win_x64/250/".toList], []⟩] =
      []) := by
  constructor
  · exact ((pageEnum_termination Unit ⟨none, false⟩
        ⟨"storage#objects".toList, none, ["Win_x64/100/".toList], []⟩
        [Except.ok ⟨"storage#objects".toList, none, ["Win_x64/250/".toList], []⟩]
        rfl).1 rfl).2.2
  · exact (pageEnum_termination Unit ⟨none, false⟩
        ⟨"storage#objects".toList, some ("tok".toList), [], []⟩
        [Except.ok ⟨"storage#objects".toList, none, ["Win_x64/250/".toList], []⟩]
        rfl).2 rfl

/-- C4: an archive stream whose first entry is a file rather than a
directory fails with the malformed-layout error before any filesystem
write: no directory is created and no file is written. -/
theorem extract_first_entry_file_fails (ε : Type) (z : ZipEntry)
    (rest : ZipStream ε) (h : z.isDir = false) :
    extract ε (Except.ok z :: rest) =
      (Except.error ExtractError.malformedFirst, ⟨[], []⟩, []) := by
  simp [extract, extractLoop, h]

/-- C4 witness: a stream starting with the file `root/x.txt` fails with
the malformed-layout error and an untouched filesystem. -/
theorem extract_first_entry_file_fails_witness :
    extract Unit [Except.ok ⟨"root/x.txt".toList, false, [7]⟩] =
      (Except.error ExtractError.malformedFirst, ⟨[], []⟩, []) :=
  extract_first_entry_file_fails Unit ⟨"root/x.txt".toList, false, [7]⟩ [] rfl

/-- C7: extracting `{dir "root/", dir "root/sub/", file "root/sub/f.txt"
with bytes B}` succeeds, writes `sub/f.txt` with exactly the bytes `B`,
and touches no path under the archive's root name — the root component
is stripped from every destination path. -/
theorem extract_round_trip (ε : Type) (B : List Nat) :
    extract ε [Except.ok ⟨"root/".toList, true, []⟩,
        Except.ok ⟨"root/sub/".toList, true, []⟩,
        Except.ok ⟨"root/sub/f.txt".toList, false, B⟩] =
      (Except.ok (), ⟨["sub/".toList], [("sub/f.txt".toList, B)]⟩, []) ∧
    readFile ⟨["sub/".toList], [("sub/f.txt".toList, B)]⟩ ("sub/f.txt".toList) =
      some B ∧
    ∀ q ∈ touchedPaths ⟨["sub/".toList], [("sub/f.txt".toList, B)]⟩,
      ¬ (("root".toList) <+: q) := by
  refine ⟨rfl, rfl, ?_⟩
  intro q hq
  simp [touchedPaths] at hq
  rcases hq with rfl | rfl <;> decide

/-- C8: extracting `{dir "root/", file "root/a.txt", file
"other/b.txt"}` fails with the malformed-layout error on the third
entry, and the file `a.txt` written for the second entry remains
recorded — no rollback of earlier writes happens on failure. -/
theorem extract_no_rollback (ε : Type) (a bOther : List Nat) :
    extract ε [Except.ok ⟨"root/".toList, true, []⟩,
        Except.ok ⟨"root/a.txt".toList, false, a⟩,
        Except.ok ⟨"other/b.txt".toList, false, bOther⟩] =
      (Except.error ExtractError.malformedEntry,
        ⟨[], [("a.txt".toList, a)]⟩, []) ∧
    readFile ⟨[], [("a.txt".toList, a)]⟩ ("a.txt".toList) = some a := by
  exact ⟨rfl, rfl⟩

/-- C3 witness: the amended rule applied at the query `"11"` and
version `"11.0.1"`. -/
theorem historyMatches_iff_witness :
    historyMatches ("11.0.1".toList) ("11".toList) = true :=
  (historyMatches_iff.1 ("11.0.1".toList) ("11".toList)).mpr
    (Or.inr ⟨by decide, by decide, by decide⟩)

/-- C7 witness: the round-trip stream with bytes `[1, 2, 3]`. -/
theorem extract_round_trip_witness :
    extract Unit [Except.ok ⟨"root/".toList, true, []⟩,
        Except.ok ⟨"root/sub/".toList, true, []⟩,
        Except.ok ⟨"root/sub/f.txt".toList, false, [1, 2, 3]⟩] =
      (Except.ok (), ⟨["sub/".toList], [("sub/f.txt".toList, [1, 2, 3])]⟩, []) :=
  (extract_round_trip Unit [1, 2, 3]).1

/-- C8 witness: the failing stream with bytes `[7]` and `[8]`. -/
theorem extract_no_rollback_witness :
    extract Unit [Except.ok ⟨"root/".toList, true, []⟩,
        Except.ok ⟨"root/a.txt".toList, false, [7]⟩,
        Except.ok ⟨"other/b.txt".toList, false, [8]⟩] =
      (Except.error ExtractError.malformedEntry,
        ⟨[], [("a.txt".toList, [7])]⟩, []) :=
  (extract_no_rollback Unit [7] [8]).1
